import Mathlib

/-!
# Verification of the word-quest sentence-construction core

This development embeds, in Lean, the sentence-construction core of the
word-quest repository: the response validator/repair step and the prompt-tier
selection of `generatePair`, and the Sentence Controller state machine formed
by `beginSentence`, `chooseWord`, `prefetchNext` and the fetch continuations.

The controller is an event-driven React component whose handlers run
atomically between `await` suspension points.  We embed it as an explicit
state type `Ctrl` together with one total Lean function per atomic code
section (the code between two suspension points), and an event type `Ev`
whose interleavings generate the reachable states.  Oracle responses are
arbitrary (`Option WordPair` carried by the completion events), so theorems
quantify over every possible oracle behaviour.  The in-flight prefetch is
recorded as the list of outstanding request keys (word sequences), and the
stored prefetched pair carries, as auxiliary ghost data, the key of the
request that produced it; the transition functions never read this ghost key,
so the behaviour is exactly that of the source.
-/

/-- The `{safe, leap}` candidate pair returned by the oracle. -/
structure WordPair where
  safe : String
  leap : String
deriving DecidableEq

/-- The two sides the user can pick, `currentPair[side]` in the source. -/
inductive Side
  | safe
  | leap
deriving DecidableEq

/-- Field selection `pair[side]` of the source. -/
def WordPair.select (p : WordPair) : Side → String
  | .safe => p.safe
  | .leap => p.leap

/-- Phases of the controller, the `Phase` union type of the source. -/
inductive Phase
  | keyEntry
  | waiting
  | choosing
  | dissolving
  | complete
deriving DecidableEq

/-- Embedding of the JavaScript test `w.endsWith(".")` (equivalently, of the
regex `/\.$/` matching): the last character of `w` is a period. -/
def endsWithPeriod (w : String) : Bool :=
  w.data.getLast? == some '.'

/-- True when the final character of `w` is a period and the character before
it (if any) is not: the trailing punctuation is exactly one period. -/
def exactlyOneTrailingPeriod (w : String) : Bool :=
  match w.data.reverse with
  | '.' :: rest => !(rest.head? == some '.')
  | _ => false

/-- Embedding of `w.replace(/\.$/, "").toLowerCase()`: strip one trailing
period if present, then case-fold character-wise (`Char.toLower`, which
agrees with `toLowerCase` on the ASCII words of the oracle contract). -/
def cleanWord (w : String) : String :=
  String.mk ((if endsWithPeriod w then w.data.dropLast else w.data).map Char.toLower)

/-- The used-word set of `generatePair`:
`new Set(words.map((w) => w.replace(/\.$/, "").toLowerCase()))`,
modelled as the list of cleaned words with `List.contains` membership. -/
def usedWordsOf (words : List String) : List String :=
  words.map cleanWord

/-- The validation/repair tail of `generatePair` (part_002 lines 115-124):
reject a pair with an empty field, reject when both cleaned fields are used,
repair by overwriting the single colliding field with the sibling field
(sequentially, as the source mutates `pair.safe` before testing `pair.leap`),
otherwise pass the pair through. -/
def validatePair (used : List String) (p : WordPair) : Option WordPair :=
  if p.safe = "" ∨ p.leap = "" then none
  else
    let safeClean := cleanWord p.safe
    let leapClean := cleanWord p.leap
    if used.contains safeClean && used.contains leapClean then none
    else
      let p1 := if used.contains safeClean then { p with safe := p.leap } else p
      let p2 := if used.contains leapClean then { p1 with leap := p1.safe } else p1
      some p2

/-- The four prompt tiers of the direct-credential `generatePair`. -/
inductive Tier
  | opening
  | lastWord
  | nearEnd
  | middle
deriving DecidableEq

/-- What a prompt tier instructs about trailing periods: `required` for
"Add a period after each word.", `forbidden` for "No punctuation." /
"no punctuation", `endOptional` for "If the word would end the sentence,
add a period after it". -/
inductive PeriodRule
  | required
  | forbidden
  | endOptional
deriving DecidableEq

/-- A prompt-builder branch outcome: which tier was selected and its
period instruction. -/
structure PromptPolicy where
  tier : Tier
  period : PeriodRule
deriving DecidableEq

/-- Prompt-tier selection of the direct-credential `generatePair`
(part_002 lines 52-97): branch on `wordCount == 0`, then on
`remaining = targetLen - wordCount` (`≤ 1`, `≤ 3`, else).  Natural-number
truncated subtraction agrees with the JavaScript signed subtraction here:
a negative `remaining` and a zero one select the same `≤ 1` branch. -/
def promptPolicy (wordCount targetLen : Nat) : PromptPolicy :=
  if wordCount = 0 then ⟨.opening, .forbidden⟩
  else if targetLen - wordCount ≤ 1 then ⟨.lastWord, .required⟩
  else if targetLen - wordCount ≤ 3 then ⟨.nearEnd, .forbidden⟩
  else ⟨.middle, .forbidden⟩

/-- The three prompt tiers of the proxied variants (part_001 `generatePair`
and the `POST` route of part_002). -/
inductive ProxyTier
  | first
  | nearEnd
  | middle
deriving DecidableEq

/-- A branch outcome of the proxied prompt builders. -/
structure ProxyPolicy where
  tier : ProxyTier
  period : PeriodRule
deriving DecidableEq

/-- Prompt-tier selection of the proxied variants (part_001 lines 33-81 and
the `POST` route, part_002 lines 527-575): branch on `position === "first"`,
else on `targetLength = Math.max(0, 10 - wordCount) <= 2`.  Natural-number
subtraction `10 - wordCount` is exactly that clamped value.  The near-end
prompt makes the period optional ("If the word would end the sentence, add a
period after it"); no branch requires one. -/
def proxyPromptPolicy (position : String) (wordCount : Nat) : ProxyPolicy :=
  if position = "first" then ⟨.first, .forbidden⟩
  else if 10 - wordCount ≤ 2 then ⟨.nearEnd, .endOptional⟩
  else ⟨.middle, .forbidden⟩

/-- The suspended continuation of the controller's single main flow: nothing
outstanding, the 800ms dissolve timer holding the chosen word, the sentence's
first fetch awaited inside `beginSentence`, or a mid-sentence fresh fetch
awaited inside `chooseWord` for the given word sequence. -/
inductive MainCont
  | idle
  | dissolve (chosen : String)
  | beginFetch
  | freshFetch (key : List String)
deriving DecidableEq

/-- The controller state: the `useState`/`useRef` cells of the component
(part_002 lines 131-142), the outstanding-prefetch request keys, and the
suspended main continuation.  `prefetchedPair` additionally records, as ghost
data never read by any transition, the request key of the prefetch that
produced the stored pair. -/
structure Ctrl where
  words : List String
  phase : Phase
  currentPair : Option WordPair
  prefetchedPair : Option (List String × WordPair)
  chosenSide : Option Side
  targetLength : Nat
  isLoading : Bool
  sentenceCount : Nat
  keyError : Bool
  prefetchFlag : Bool
  prefetchInFlight : List (List String)
  cont : MainCont
deriving DecidableEq

/-- The synchronous head of `prefetchNext` (part_002 lines 164-174): a no-op
while `prefetchRef.current` is set, otherwise set the flag and issue the
request for `currentWords ++ [chosenWord]`. -/
def prefetchNextStart (s : Ctrl) (currentWords : List String) (chosenWord : String) : Ctrl :=
  if s.prefetchFlag then s
  else { s with prefetchFlag := true,
                prefetchInFlight := s.prefetchInFlight ++ [currentWords ++ [chosenWord]] }

/-- Completion of an outstanding prefetch (the tail of `prefetchNext`):
store the result, possibly `none`, as the prefetched pair tagged with its
request key, and clear the in-flight flag. -/
def prefetchDoneStep (s : Ctrl) (res : Option WordPair) : Ctrl :=
  match s.prefetchInFlight with
  | [] => s
  | k :: rest =>
      { s with prefetchedPair := res.map (fun p => (k, p)),
               prefetchFlag := false,
               prefetchInFlight := rest }

/-- The synchronous head of `beginSentence` (part_002 lines 177-183): reset
the words, the chosen side and the prefetched pair, show the loading state,
re-enter `waiting`, and await the first fetch.  The target length is a
`useState` cell initialised once at mount and is not touched here. -/
def beginSentence (s : Ctrl) : Ctrl :=
  { s with words := [], phase := .waiting, chosenSide := none,
           prefetchedPair := none, isLoading := true, cont := .beginFetch }

/-- The synchronous head of `chooseWord` (part_002 lines 215-230): guarded on
`phase === "choosing" && currentPair`; record the chosen side, enter
`dissolving`, start the prefetch when the sentence will not be complete after
this word, and suspend on the 800ms dissolve timer holding the chosen word. -/
def chooseWordStart (s : Ctrl) (side : Side) : Ctrl :=
  match s.currentPair with
  | none => s
  | some p =>
      if s.phase = Phase.choosing then
        let chosen := p.select side
        let s1 := { s with chosenSide := some side, phase := .dissolving,
                           cont := .dissolve chosen }
        if s.words.length + 1 < s.targetLength then
          prefetchNextStart s1 s.words chosen
        else s1
      else s

/-- The continuation of `chooseWord` after the 800ms dissolve (part_002
lines 232-263): append the chosen word; seal the sentence (appending a period
to the last word in place when the chosen word lacks one) and enter
`complete` when the length reached the target or the word bears a terminal
period; otherwise adopt an available prefetched pair with no new oracle call,
or suspend on a fresh fetch for the updated word sequence. -/
def dissolveEndStep (s : Ctrl) : Ctrl :=
  match s.cont with
  | .dissolve chosen =>
      let newWords := s.words ++ [chosen]
      if s.targetLength ≤ newWords.length ∨ endsWithPeriod chosen then
        let finalWords := if endsWithPeriod chosen then newWords
                          else s.words ++ [chosen ++ "."]
        { s with words := finalWords, phase := .complete,
                 sentenceCount := s.sentenceCount + 1, cont := .idle }
      else
        let s1 := { s with words := newWords, chosenSide := none }
        match s.prefetchedPair with
        | some kp =>
            { s1 with currentPair := some kp.2, prefetchedPair := none,
                      phase := .choosing, cont := .idle }
        | none =>
            { s1 with isLoading := true, cont := .freshFetch newWords }
  | _ => s

/-- Completion of the awaited main-flow fetch.  For the sentence's first
fetch (part_002 lines 184-193): success enters `choosing` with the pair,
failure sets the key-error flag and falls back to `key-entry`.  For a
mid-sentence fresh fetch (part_002 lines 256-262): success enters `choosing`
with the pair, failure only clears the loading flag. -/
def fetchDoneStep (s : Ctrl) (res : Option WordPair) : Ctrl :=
  match s.cont with
  | .beginFetch =>
      match res with
      | some p => { s with currentPair := some p, phase := .choosing,
                           isLoading := false, cont := .idle }
      | none => { s with keyError := true, phase := .keyEntry,
                         isLoading := false, cont := .idle }
  | .freshFetch _ =>
      match res with
      | some p => { s with currentPair := some p, phase := .choosing,
                           isLoading := false, cont := .idle }
      | none => { s with isLoading := false, cont := .idle }
  | _ => s

/-- The user-triggered restart: the `begin again` button and the
`Enter`/space key are available only in `complete` and invoke
`beginSentence`. -/
def restartStep (s : Ctrl) : Ctrl :=
  if s.phase = Phase.complete then beginSentence s else s

/-- `submitKey` (part_002 lines 204-212), reachable only from the key-entry
screen: clear the error flag and enter `waiting` (the stored credential
itself is not part of the modelled state). -/
def submitKeyStep (s : Ctrl) : Ctrl :=
  if s.phase = Phase.keyEntry then { s with keyError := false, phase := .waiting }
  else s

/-- The mount effect (part_002 lines 197-201): once a key is held and the
phase is `waiting` with no main flow outstanding, `beginSentence` runs. -/
def beginWaitingStep (s : Ctrl) : Ctrl :=
  if s.phase = Phase.waiting ∧ s.cont = MainCont.idle then beginSentence s else s

/-- Events of the controller: the user's choice, the firing of the dissolve
timer, completion of the awaited main-flow fetch or of the background
prefetch (each carrying an arbitrary oracle result), the restart action, the
key submission, and the mount effect.  Guard-failing events leave the state
unchanged. -/
inductive Ev
  | choose (side : Side)
  | dissolveEnd
  | fetchDone (res : Option WordPair)
  | prefetchDone (res : Option WordPair)
  | restart
  | submitKey
  | beginWaiting
deriving DecidableEq

/-- One atomic transition of the controller. -/
def applyEv (s : Ctrl) : Ev → Ctrl
  | .choose side => chooseWordStart s side
  | .dissolveEnd => dissolveEndStep s
  | .fetchDone res => fetchDoneStep s res
  | .prefetchDone res => prefetchDoneStep s res
  | .restart => restartStep s
  | .submitKey => submitKeyStep s
  | .beginWaiting => beginWaitingStep s

/-- Run a sequence of events from a state. -/
def run (s : Ctrl) (evs : List Ev) : Ctrl :=
  evs.foldl applyEv s

/-- The state at component mount with target length `tl`: everything empty,
phase `key-entry`, before the stored-key effect runs. -/
def init (tl : Nat) : Ctrl :=
  { words := [], phase := .keyEntry, currentPair := none, prefetchedPair := none,
    chosenSide := none, targetLength := tl, isLoading := false, sentenceCount := 0,
    keyError := false, prefetchFlag := false, prefetchInFlight := [], cont := .idle }

/-- A state is reachable when some event sequence produces it from the mount
state for some target length in `[8,12]` (the draw
`8 + Math.floor(Math.random() * 5)`). -/
def Reachable (s : Ctrl) : Prop :=
  ∃ tl evs, 8 ≤ tl ∧ tl ≤ 12 ∧ run (init tl) evs = s

/-- A run with target length 8 in which the oracle's very first pair carries
words already ending in a period and the user picks the safe side: the
sentence seals immediately. -/
def traceSealOne : List Ev :=
  [ .submitKey, .beginWaiting, .fetchDone (some ⟨"rain.", "mist"⟩),
    .choose .safe, .dissolveEnd ]

/-- The completed state of `traceSealOne`. -/
def stateSealOne : Ctrl := run (init 8) traceSealOne

/-- Like `traceSealOne` but the chosen word ends in two periods. -/
def traceSealDouble : List Ev :=
  [ .submitKey, .beginWaiting, .fetchDone (some ⟨"rain..", "mist"⟩),
    .choose .safe, .dissolveEnd ]

/-- The completed state of `traceSealDouble`. -/
def stateSealDouble : Ctrl := run (init 8) traceSealDouble

/-- A run in which the step-one prefetch (issued for word sequence
`["the"]`) completes only after that step has already re-entered `choosing`
through a fresh fetch, so the stored prefetched pair is still present — now
stale — when the user makes the second choice. -/
def traceStale : List Ev :=
  [ .submitKey, .beginWaiting, .fetchDone (some ⟨"the", "beneath"⟩),
    .choose .safe, .dissolveEnd, .prefetchDone (some ⟨"night", "moth"⟩),
    .fetchDone (some ⟨"rain", "moon"⟩), .choose .safe ]

/-- The state of `traceStale` just before the second dissolve ends: the
sentence is `["the"]`, the dissolve holds `"rain"`, and the prefetched pair
on hand was fetched for `["the"]`. -/
def stateStale : Ctrl := run (init 8) traceStale

/-- A mid-dissolve state in which the prefetched pair on hand was fetched
for exactly the updated word sequence (the non-stale case). -/
def adoptState : Ctrl :=
  { words := ["the"], phase := .dissolving, currentPair := some ⟨"rain", "moon"⟩,
    prefetchedPair := some (["the", "rain"], ⟨"night", "moth"⟩),
    chosenSide := some .safe, targetLength := 8, isLoading := false,
    sentenceCount := 0, keyError := false, prefetchFlag := false,
    prefetchInFlight := [], cont := .dissolve "rain" }

/-- A run with target length 9 that completes at its first word. -/
def traceSealNine : List Ev :=
  [ .submitKey, .beginWaiting, .fetchDone (some ⟨"dawn", "owl."⟩),
    .choose .leap, .dissolveEnd ]

/-- The completed state of `traceSealNine`. -/
def stateSealNine : Ctrl := run (init 9) traceSealNine

/-- A run paused mid-dissolve on its first choice. -/
def traceDissolve : List Ev :=
  [ .submitKey, .beginWaiting, .fetchDone (some ⟨"the", "beneath"⟩),
    .choose .safe ]

/-- The state of `traceDissolve`: the dissolve timer holds `"the"` and the
step-one prefetch is in flight. -/
def stateDissolve : Ctrl := run (init 8) traceDissolve

/-- A run suspended on a mid-sentence fresh fetch for `["the"]`. -/
def traceFresh : List Ev :=
  [ .submitKey, .beginWaiting, .fetchDone (some ⟨"the", "beneath"⟩),
    .choose .safe, .dissolveEnd ]

/-- The state of `traceFresh`. -/
def stateFresh : Ctrl := run (init 8) traceFresh

/-- A run suspended on the sentence's first fetch. -/
def beginState : Ctrl := run (init 8) [.submitKey, .beginWaiting]

/-- The inductive invariant of the controller: the target length is the
mount-time draw in `[8,12]`; the sentence never exceeds it and is strictly
below it whenever a further choice or append is possible; the begin fetch
only runs over an empty sentence from `waiting`; a completed sentence is
nonempty and its last word carries a terminal period; and at most one
prefetch request is outstanding, exactly when the in-flight flag is set. -/
structure CtrlInv (s : Ctrl) : Prop where
  tlLower : 8 ≤ s.targetLength
  tlUpper : s.targetLength ≤ 12
  lenLe : s.words.length ≤ s.targetLength
  choosingLt : s.phase = Phase.choosing → s.words.length < s.targetLength
  dissolveCont : ∀ c, s.cont = MainCont.dissolve c →
    s.words.length < s.targetLength ∧ s.phase = Phase.dissolving
  freshCont : ∀ k, s.cont = MainCont.freshFetch k →
    s.words.length < s.targetLength ∧ s.phase = Phase.dissolving
  beginCont : s.cont = MainCont.beginFetch → s.words = [] ∧ s.phase = Phase.waiting
  completeLast : s.phase = Phase.complete →
    ∃ w, s.words.getLast? = some w ∧ endsWithPeriod w = true
  flightLe : s.prefetchInFlight.length ≤ 1
  flagIff : s.prefetchFlag = true ↔ s.prefetchInFlight ≠ []

/-- Appending a period produces a word whose last character is a period. -/
theorem endsWithPeriod_append_period (w : String) : endsWithPeriod (w ++ ".") = true := by
  unfold endsWithPeriod
  have hdata : (w ++ ".").data = w.data ++ ['.'] := rfl
  rw [hdata, List.getLast?_concat]
  rfl

theorem ctrlInv_init (tl : Nat) (h8 : 8 ≤ tl) (h12 : tl ≤ 12) : CtrlInv (init tl) := by
  refine ⟨h8, h12, by simp [init], ?_, ?_, ?_, ?_, ?_, by simp [init], ?_⟩
  · intro hc; exact Phase.noConfusion hc
  · intro c hc; exact MainCont.noConfusion hc
  · intro k hk; exact MainCont.noConfusion hk
  · intro hb; exact MainCont.noConfusion hb
  · intro hc; exact Phase.noConfusion hc
  · simp [init]

theorem ctrlInv_beginSentence {s : Ctrl} (h : CtrlInv s) : CtrlInv (beginSentence s) := by
  refine ⟨h.tlLower, h.tlUpper, Nat.zero_le _, ?_, ?_, ?_, ?_, ?_, h.flightLe, h.flagIff⟩
  · intro hc; exact Phase.noConfusion hc
  · intro c hc; exact MainCont.noConfusion hc
  · intro k hk; exact MainCont.noConfusion hk
  · intro _; exact ⟨rfl, rfl⟩
  · intro hc; exact Phase.noConfusion hc

theorem ctrlInv_choose {s : Ctrl} (h : CtrlInv s) (side : Side) : CtrlInv (chooseWordStart s side) := by
  unfold chooseWordStart
  split
  · exact h
  · rename_i p hcp
    by_cases hph : s.phase = Phase.choosing
    · rw [if_pos hph]
      have hlt : s.words.length < s.targetLength := h.choosingLt hph
      by_cases hlen : s.words.length + 1 < s.targetLength
      · rw [if_pos hlen]
        unfold prefetchNextStart
        by_cases hfl : s.prefetchFlag = true
        · rw [if_pos hfl]
          refine ⟨h.tlLower, h.tlUpper, h.lenLe, ?_, ?_, ?_, ?_, ?_, h.flightLe, ?_⟩
          · intro hc; exact Phase.noConfusion hc
          · intro c hc
            cases hc
            exact ⟨hlt, rfl⟩
          · intro k hk; exact MainCont.noConfusion hk
          · intro hb; exact MainCont.noConfusion hb
          · intro hc; exact Phase.noConfusion hc
          · exact h.flagIff
        · rw [if_neg hfl]
          have hemp : s.prefetchInFlight = [] := by
            by_contra hne
            exact hfl (h.flagIff.mpr hne)
          refine ⟨h.tlLower, h.tlUpper, h.lenLe, ?_, ?_, ?_, ?_, ?_, ?_, ?_⟩
          · intro hc; exact Phase.noConfusion hc
          · intro c hc
            cases hc
            exact ⟨hlt, rfl⟩
          · intro k hk; exact MainCont.noConfusion hk
          · intro hb; exact MainCont.noConfusion hb
          · intro hc; exact Phase.noConfusion hc
          · simp [hemp]
          · simp [hemp]
      · rw [if_neg hlen]
        refine ⟨h.tlLower, h.tlUpper, h.lenLe, ?_, ?_, ?_, ?_, ?_, h.flightLe, h.flagIff⟩
        · intro hc; exact Phase.noConfusion hc
        · intro c hc
          cases hc
          exact ⟨hlt, rfl⟩
        · intro k hk; exact MainCont.noConfusion hk
        · intro hb; exact MainCont.noConfusion hb
        · intro hc; exact Phase.noConfusion hc
    · rw [if_neg hph]
      exact h

theorem ctrlInv_dissolveEnd {s : Ctrl} (h : CtrlInv s) : CtrlInv (dissolveEndStep s) := by
  unfold dissolveEndStep
  split
  · rename_i chosen hcont
    have hlt := (h.dissolveCont chosen hcont).1
    have hph := (h.dissolveCont chosen hcont).2
    dsimp only
    by_cases hseal : s.targetLength ≤ (s.words ++ [chosen]).length ∨ endsWithPeriod chosen = true
    · rw [if_pos hseal]
      by_cases hp : endsWithPeriod chosen = true
      · rw [if_pos hp]
        refine ⟨h.tlLower, h.tlUpper, ?_, ?_, ?_, ?_, ?_, ?_, h.flightLe, h.flagIff⟩
        · simp only [List.length_append, List.length_singleton]
          omega
        · intro hc; exact Phase.noConfusion hc
        · intro c hc; exact MainCont.noConfusion hc
        · intro k hk; exact MainCont.noConfusion hk
        · intro hb; exact MainCont.noConfusion hb
        · intro _
          exact ⟨chosen, List.getLast?_concat _, hp⟩
      · rw [if_neg hp]
        refine ⟨h.tlLower, h.tlUpper, ?_, ?_, ?_, ?_, ?_, ?_, h.flightLe, h.flagIff⟩
        · simp only [List.length_append, List.length_singleton]
          omega
        · intro hc; exact Phase.noConfusion hc
        · intro c hc; exact MainCont.noConfusion hc
        · intro k hk; exact MainCont.noConfusion hk
        · intro hb; exact MainCont.noConfusion hb
        · intro _
          exact ⟨chosen ++ ".", List.getLast?_concat _, endsWithPeriod_append_period chosen⟩
    · rw [if_neg hseal]
      have hlt2 : s.words.length + 1 < s.targetLength := by
        rcases Nat.lt_or_ge (s.words.length + 1) s.targetLength with hgood | hbad
        · exact hgood
        · exact absurd (Or.inl (by simp only [List.length_append, List.length_singleton]; omega)) hseal
      cases hpp : s.prefetchedPair with
      | some kp =>
          refine ⟨h.tlLower, h.tlUpper, ?_, ?_, ?_, ?_, ?_, ?_, h.flightLe, h.flagIff⟩
          · simp only [List.length_append, List.length_singleton]
            omega
          · intro _
            simp only [List.length_append, List.length_singleton]
            omega
          · intro c hc; exact MainCont.noConfusion hc
          · intro k hk; exact MainCont.noConfusion hk
          · intro hb; exact MainCont.noConfusion hb
          · intro hc; exact Phase.noConfusion hc
      | none =>
          refine ⟨h.tlLower, h.tlUpper, ?_, ?_, ?_, ?_, ?_, ?_, h.flightLe, h.flagIff⟩
          · simp only [List.length_append, List.length_singleton]
            omega
          · intro hc
            rw [hph] at hc
            exact Phase.noConfusion hc
          · intro c hc; exact MainCont.noConfusion hc
          · intro k hk
            cases hk
            refine ⟨?_, hph⟩
            simp only [List.length_append, List.length_singleton]
            omega
          · intro hb; exact MainCont.noConfusion hb
          · intro hc
            rw [hph] at hc
            exact Phase.noConfusion hc
  · exact h

theorem ctrlInv_fetchDone {s : Ctrl} (h : CtrlInv s) (res : Option WordPair) :
    CtrlInv (fetchDoneStep s res) := by
  unfold fetchDoneStep
  split
  · rename_i hcont
    obtain ⟨hw, hph⟩ := h.beginCont hcont
    cases res with
    | some p =>
        refine ⟨h.tlLower, h.tlUpper, h.lenLe, ?_, ?_, ?_, ?_, ?_, h.flightLe, h.flagIff⟩
        · intro _
          rw [hw]
          simpa using Nat.lt_of_lt_of_le (by norm_num) h.tlLower
        · intro c hc; exact MainCont.noConfusion hc
        · intro k hk; exact MainCont.noConfusion hk
        · intro hb; exact MainCont.noConfusion hb
        · intro hc; exact Phase.noConfusion hc
    | none =>
        refine ⟨h.tlLower, h.tlUpper, h.lenLe, ?_, ?_, ?_, ?_, ?_, h.flightLe, h.flagIff⟩
        · intro hc; exact Phase.noConfusion hc
        · intro c hc; exact MainCont.noConfusion hc
        · intro k hk; exact MainCont.noConfusion hk
        · intro hb; exact MainCont.noConfusion hb
        · intro hc; exact Phase.noConfusion hc
  · rename_i k hcont
    have hlt := (h.freshCont k hcont).1
    have hph := (h.freshCont k hcont).2
    cases res with
    | some p =>
        refine ⟨h.tlLower, h.tlUpper, h.lenLe, ?_, ?_, ?_, ?_, ?_, h.flightLe, h.flagIff⟩
        · intro _; exact hlt
        · intro c hc; exact MainCont.noConfusion hc
        · intro k2 hk; exact MainCont.noConfusion hk
        · intro hb; exact MainCont.noConfusion hb
        · intro hc; exact Phase.noConfusion hc
    | none =>
        refine ⟨h.tlLower, h.tlUpper, h.lenLe, ?_, ?_, ?_, ?_, ?_, h.flightLe, h.flagIff⟩
        · intro hc
          rw [hph] at hc
          exact Phase.noConfusion hc
        · intro c hc; exact MainCont.noConfusion hc
        · intro k2 hk; exact MainCont.noConfusion hk
        · intro hb; exact MainCont.noConfusion hb
        · intro hc
          rw [hph] at hc
          exact Phase.noConfusion hc
  · exact h

theorem ctrlInv_prefetchDone {s : Ctrl} (h : CtrlInv s) (res : Option WordPair) :
    CtrlInv (prefetchDoneStep s res) := by
  unfold prefetchDoneStep
  split
  · exact h
  · rename_i k rest heq
    have hrest : rest = [] := by
      have hle := h.flightLe
      rw [heq] at hle
      simp only [List.length_cons] at hle
      exact List.eq_nil_of_length_eq_zero (by omega)
    refine ⟨h.tlLower, h.tlUpper, h.lenLe, h.choosingLt, h.dissolveCont, h.freshCont,
      h.beginCont, h.completeLast, ?_, ?_⟩
    · rw [hrest]; simp
    · rw [hrest]; simp

theorem ctrlInv_restart {s : Ctrl} (h : CtrlInv s) : CtrlInv (restartStep s) := by
  unfold restartStep
  split
  · exact ctrlInv_beginSentence h
  · exact h

theorem ctrlInv_beginWaiting {s : Ctrl} (h : CtrlInv s) : CtrlInv (beginWaitingStep s) := by
  unfold beginWaitingStep
  split
  · exact ctrlInv_beginSentence h
  · exact h

theorem ctrlInv_submitKey {s : Ctrl} (h : CtrlInv s) : CtrlInv (submitKeyStep s) := by
  unfold submitKeyStep
  split
  · rename_i hph
    refine ⟨h.tlLower, h.tlUpper, h.lenLe, ?_, ?_, ?_, ?_, ?_, h.flightLe, h.flagIff⟩
    · intro hc; exact Phase.noConfusion hc
    · intro c hc
      have hd := (h.dissolveCont c hc).2
      rw [hph] at hd
      exact Phase.noConfusion hd
    · intro k hk
      have hd := (h.freshCont k hk).2
      rw [hph] at hd
      exact Phase.noConfusion hd
    · intro hb
      exact ⟨(h.beginCont hb).1, rfl⟩
    · intro hc; exact Phase.noConfusion hc
  · exact h

theorem ctrlInv_applyEv {s : Ctrl} (h : CtrlInv s) (e : Ev) : CtrlInv (applyEv s e) := by
  cases e with
  | choose side => exact ctrlInv_choose h side
  | dissolveEnd => exact ctrlInv_dissolveEnd h
  | fetchDone res => exact ctrlInv_fetchDone h res
  | prefetchDone res => exact ctrlInv_prefetchDone h res
  | restart => exact ctrlInv_restart h
  | submitKey => exact ctrlInv_submitKey h
  | beginWaiting => exact ctrlInv_beginWaiting h

theorem ctrlInv_run {s : Ctrl} (h : CtrlInv s) (evs : List Ev) : CtrlInv (run s evs) := by
  induction evs generalizing s with
  | nil => exact h
  | cons e rest ih => exact ih (ctrlInv_applyEv h e)

/-- Every reachable controller state satisfies the inductive invariant. -/
theorem reachable_ctrlInv {s : Ctrl} (h : Reachable s) : CtrlInv s := by
  obtain ⟨tl, evs, h8, h12, hrun⟩ := h
  exact hrun ▸ ctrlInv_run (ctrlInv_init tl h8 h12) evs

/-- C3: the validator/repair step, for every raw pair and used-word set,
returns null when a field is empty; returns null when both cleaned fields
are used; when exactly one cleaned field is used, replaces that field with
the other field's original value so both fields coincide; and otherwise
passes the pair through unchanged — including the two particular instances
named by the claim. -/
theorem claimC3 (p : WordPair) (U : List String) :
    ((p.safe = "" ∨ p.leap = "") → validatePair U p = none) ∧
    (p.safe ≠ "" → p.leap ≠ "" →
      U.contains (cleanWord p.safe) = true → U.contains (cleanWord p.leap) = true →
      validatePair U p = none) ∧
    (p.safe ≠ "" → p.leap ≠ "" →
      U.contains (cleanWord p.safe) = true → U.contains (cleanWord p.leap) = false →
      validatePair U p = some ⟨p.leap, p.leap⟩) ∧
    (p.safe ≠ "" → p.leap ≠ "" →
      U.contains (cleanWord p.safe) = false → U.contains (cleanWord p.leap) = true →
      validatePair U p = some ⟨p.safe, p.safe⟩) ∧
    (p.safe ≠ "" → p.leap ≠ "" →
      U.contains (cleanWord p.safe) = false → U.contains (cleanWord p.leap) = false →
      validatePair U p = some p) ∧
    validatePair ["the"] ⟨"the", "window"⟩ = some ⟨"window", "window"⟩ ∧
    validatePair [] ⟨"rain", "rain"⟩ = some ⟨"rain", "rain"⟩ := by
  refine ⟨?_, ?_, ?_, ?_, ?_, by decide, by decide⟩
  · intro h
    rcases h with h | h <;> simp [validatePair, h]
  · intro hs hl hsc hlc
    have hsc2 : cleanWord p.safe ∈ U := by simpa using hsc
    have hlc2 : cleanWord p.leap ∈ U := by simpa using hlc
    simp [validatePair, hs, hl, hsc2, hlc2]
  · intro hs hl hsc hlc
    have hsc2 : cleanWord p.safe ∈ U := by simpa using hsc
    have hlc2 : cleanWord p.leap ∉ U := by simpa using hlc
    simp [validatePair, hs, hl, hsc2, hlc2]
  · intro hs hl hsc hlc
    have hsc2 : cleanWord p.safe ∉ U := by simpa using hsc
    have hlc2 : cleanWord p.leap ∈ U := by simpa using hlc
    simp [validatePair, hs, hl, hsc2, hlc2]
  · intro hs hl hsc hlc
    have hsc2 : cleanWord p.safe ∉ U := by simpa using hsc
    have hlc2 : cleanWord p.leap ∉ U := by simpa using hlc
    simp [validatePair, hs, hl, hsc2, hlc2]

/-- C3 witness: the repair instance `{safe: "the", leap: "window"}` against
`{"the"}` produces `{safe: "window", leap: "window"}`. -/
theorem claimC3_witness :
    validatePair ["the"] ⟨"the", "window"⟩ = some ⟨"window", "window"⟩ :=
  (claimC3 ⟨"the", "window"⟩ ["the"]).2.2.1 (by decide) (by decide)
    (by decide) (by decide)

/-- C8: whenever the validator returns a pair, neither field of the returned
pair collides with the used-word set after period-stripping and
case-folding. -/
theorem claimC8 (U : List String) (p q : WordPair)
    (h : validatePair U p = some q) :
    U.contains (cleanWord q.safe) = false ∧ U.contains (cleanWord q.leap) = false := by
  by_cases h0 : p.safe = "" ∨ p.leap = ""
  · exfalso
    have hn : validatePair U p = none := by
      rcases h0 with h0 | h0 <;> simp [validatePair, h0]
    rw [hn] at h
    exact Option.noConfusion h
  · push_neg at h0
    obtain ⟨hs, hl⟩ := h0
    cases hsc : U.contains (cleanWord p.safe) with
    | true =>
        cases hlc : U.contains (cleanWord p.leap) with
        | true =>
            exfalso
            have hsc2 : cleanWord p.safe ∈ U := by simpa using hsc
            have hlc2 : cleanWord p.leap ∈ U := by simpa using hlc
            have hn : validatePair U p = none := by
              simp [validatePair, hs, hl, hsc2, hlc2]
            rw [hn] at h
            exact Option.noConfusion h
        | false =>
            have hsc2 : cleanWord p.safe ∈ U := by simpa using hsc
            have hlc2 : cleanWord p.leap ∉ U := by simpa using hlc
            have he : validatePair U p = some ⟨p.leap, p.leap⟩ := by
              simp [validatePair, hs, hl, hsc2, hlc2]
            rw [he] at h
            obtain rfl : q = ⟨p.leap, p.leap⟩ := (Option.some_inj.mp h).symm
            exact ⟨hlc, hlc⟩
    | false =>
        cases hlc : U.contains (cleanWord p.leap) with
        | true =>
            have hsc2 : cleanWord p.safe ∉ U := by simpa using hsc
            have hlc2 : cleanWord p.leap ∈ U := by simpa using hlc
            have he : validatePair U p = some ⟨p.safe, p.safe⟩ := by
              simp [validatePair, hs, hl, hsc2, hlc2]
            rw [he] at h
            obtain rfl : q = ⟨p.safe, p.safe⟩ := (Option.some_inj.mp h).symm
            exact ⟨hsc, hsc⟩
        | false =>
            have hsc2 : cleanWord p.safe ∉ U := by simpa using hsc
            have hlc2 : cleanWord p.leap ∉ U := by simpa using hlc
            have he : validatePair U p = some p := by
              simp [validatePair, hs, hl, hsc2, hlc2]
            rw [he] at h
            obtain rfl : q = p := (Option.some_inj.mp h).symm
            exact ⟨hsc, hlc⟩

/-- C8 witness: the repaired pair `{safe: "window", leap: "window"}` returned
against `{"the"}` collides with nothing. -/
theorem claimC8_witness :
    List.contains ["the"] (cleanWord (WordPair.mk "window" "window").safe) = false ∧
    List.contains ["the"] (cleanWord (WordPair.mk "window" "window").leap) = false :=
  claimC8 ["the"] ⟨"the", "window"⟩ ⟨"window", "window"⟩ (by decide)

/-- C5 counterexample: the claim requires every prompt-builder variant to
select a mandatory-period last-word tier at the last-word position, but the
proxied builders, at word 9 of a 10-ish-word sentence, select a near-end
tier whose period is optional, never required — only the direct-credential
builder has the required-period tier. -/
theorem claimC5_counterexample :
    (proxyPromptPolicy "middle" 9).tier = ProxyTier.nearEnd ∧
    (proxyPromptPolicy "middle" 9).period = PeriodRule.endOptional ∧
    ¬ (proxyPromptPolicy "middle" 9).period = PeriodRule.required ∧
    (promptPolicy 9 10).period = PeriodRule.required := by
  decide

/-- C5 (amended): the direct-credential builder selects among exactly the
four claimed tiers by the remaining word budget (opening when the sentence
is empty; last word with a required period when `remaining ≤ 1`; near end,
no period, when `remaining` is 2 or 3; middle, no period, otherwise),
including the claim's two instances; the proxied builders instead select
among three tiers keyed off a fixed target of 10 (`first`; near end with an
optional period once 8 words exist; middle otherwise) and never require a
trailing period. -/
theorem claimC5 (wordCount targetLen : Nat) (position : String) :
    (wordCount = 0 → promptPolicy wordCount targetLen = ⟨Tier.opening, PeriodRule.forbidden⟩) ∧
    (wordCount ≠ 0 → targetLen ≤ wordCount + 1 →
      promptPolicy wordCount targetLen = ⟨Tier.lastWord, PeriodRule.required⟩) ∧
    (wordCount ≠ 0 → wordCount + 2 ≤ targetLen → targetLen ≤ wordCount + 3 →
      promptPolicy wordCount targetLen = ⟨Tier.nearEnd, PeriodRule.forbidden⟩) ∧
    (wordCount ≠ 0 → wordCount + 4 ≤ targetLen →
      promptPolicy wordCount targetLen = ⟨Tier.middle, PeriodRule.forbidden⟩) ∧
    promptPolicy 0 10 = ⟨Tier.opening, PeriodRule.forbidden⟩ ∧
    promptPolicy 9 10 = ⟨Tier.lastWord, PeriodRule.required⟩ ∧
    ¬ (proxyPromptPolicy position wordCount).period = PeriodRule.required ∧
    (position = "first" →
      proxyPromptPolicy position wordCount = ⟨ProxyTier.first, PeriodRule.forbidden⟩) ∧
    (position ≠ "first" → 8 ≤ wordCount →
      proxyPromptPolicy position wordCount = ⟨ProxyTier.nearEnd, PeriodRule.endOptional⟩) ∧
    (position ≠ "first" → wordCount < 8 →
      proxyPromptPolicy position wordCount = ⟨ProxyTier.middle, PeriodRule.forbidden⟩) := by
  refine ⟨?_, ?_, ?_, ?_, by decide, by decide, ?_, ?_, ?_, ?_⟩
  · intro h
    simp [promptPolicy, h]
  · intro h hle
    have hsub : targetLen - wordCount ≤ 1 := by omega
    simp [promptPolicy, h, hsub]
  · intro h h2 h3
    have hs1 : ¬ targetLen - wordCount ≤ 1 := by omega
    have hs3 : targetLen - wordCount ≤ 3 := by omega
    simp [promptPolicy, h, hs1, hs3]
  · intro h h4
    have hs1 : ¬ targetLen - wordCount ≤ 1 := by omega
    have hs3 : ¬ targetLen - wordCount ≤ 3 := by omega
    simp [promptPolicy, h, hs1, hs3]
  · unfold proxyPromptPolicy
    split
    · decide
    · split
      · decide
      · decide
  · intro h
    simp [proxyPromptPolicy, h]
  · intro h h8
    have hs : 10 - wordCount ≤ 2 := by omega
    simp [proxyPromptPolicy, h, hs]
  · intro h h8
    have hs : ¬ 10 - wordCount ≤ 2 := by omega
    simp [proxyPromptPolicy, h, hs]

/-- C5 witness: at 9 words of a target-10 sentence the direct-credential
builder selects the last-word tier with the required period. -/
theorem claimC5_witness :
    promptPolicy 9 10 = ⟨Tier.lastWord, PeriodRule.required⟩ :=
  (claimC5 9 10 "middle").2.1 (by decide) (by decide)

/-- C10: invoking `chooseWord` in any phase other than `choosing`, or with
no current pair set, returns the state completely unchanged — no word
appended, no phase change, no side or pair recorded, no prefetch issued. -/
theorem claimC10 (s : Ctrl) (side : Side)
    (h : ¬ s.phase = Phase.choosing ∨ s.currentPair = none) :
    chooseWordStart s side = s := by
  unfold chooseWordStart
  split
  · rfl
  · rename_i p hcp
    rcases h with h | h
    · rw [if_neg h]
    · rw [hcp] at h
      exact Option.noConfusion h

/-- C10 witness: a choice at the mount state (key-entry phase, no pair)
changes nothing. -/
theorem claimC10_witness : chooseWordStart (init 8) Side.safe = init 8 :=
  claimC10 (init 8) Side.safe (Or.inl (by decide))

/-- C7: fetch and validation failures reach the controller as the null-pair
result (`none` in this embedding — `generatePair` catches every exception
and returns null), and the controller's two behaviours on it are exactly:
at sentence start, set the key-error flag, fall back to key-entry and clear
the loading flag; mid-sentence, clear the loading flag and change nothing
else — no phase transition, the word sequence and pairs untouched. -/
theorem claimC7 :
    (∀ s : Ctrl, s.cont = MainCont.beginFetch →
      fetchDoneStep s none =
        { s with keyError := true, phase := Phase.keyEntry,
                 isLoading := false, cont := MainCont.idle }) ∧
    (∀ (s : Ctrl) (k : List String), s.cont = MainCont.freshFetch k →
      fetchDoneStep s none = { s with isLoading := false, cont := MainCont.idle }) := by
  constructor
  · intro s hcont
    unfold fetchDoneStep
    rw [hcont]
  · intro s k hcont
    unfold fetchDoneStep
    rw [hcont]

/-- C7 witness: the two failure behaviours at concrete reachable states —
a failing first fetch and a failing mid-sentence fetch. -/
theorem claimC7_witness :
    fetchDoneStep beginState none =
      { beginState with keyError := true, phase := Phase.keyEntry,
                        isLoading := false, cont := MainCont.idle } ∧
    fetchDoneStep stateFresh none =
      { stateFresh with isLoading := false, cont := MainCont.idle } :=
  ⟨claimC7.1 beginState (by decide),
   claimC7.2 stateFresh ["the"] (by decide)⟩

/-- C9: the boolean in-flight flag makes a second prefetch request a no-op
(the state, including the outstanding-request list, is unchanged), every
reachable state has at most one outstanding prefetch request, and the
completion of an outstanding prefetch clears the flag and retires the
request. -/
theorem claimC9 :
    (∀ (s : Ctrl) (w : List String) (c : String), s.prefetchFlag = true →
      prefetchNextStart s w c = s) ∧
    (∀ s : Ctrl, Reachable s → s.prefetchInFlight.length ≤ 1) ∧
    (∀ (s : Ctrl) (res : Option WordPair), ¬ s.prefetchInFlight = [] →
      (prefetchDoneStep s res).prefetchFlag = false ∧
      (prefetchDoneStep s res).prefetchInFlight = s.prefetchInFlight.tail) := by
  refine ⟨?_, ?_, ?_⟩
  · intro s w c hfl
    unfold prefetchNextStart
    rw [if_pos hfl]
  · intro s hr
    exact (reachable_ctrlInv hr).flightLe
  · intro s res hne
    unfold prefetchDoneStep
    split
    · rename_i hemp
      exact absurd hemp hne
    · rename_i k rest heq
      constructor
      · rfl
      · rw [heq]
        rfl

/-- C9 witness: with the step-one prefetch outstanding, a second prefetch
request is the identity; a reachable state has at most one request in
flight; and completing the outstanding prefetch clears the flag. -/
theorem claimC9_witness :
    prefetchNextStart stateDissolve ["x"] "y" = stateDissolve ∧
    (init 8).prefetchInFlight.length ≤ 1 ∧
    (prefetchDoneStep stateDissolve none).prefetchFlag = false :=
  ⟨claimC9.1 stateDissolve ["x"] "y" (by decide),
   claimC9.2.1 (init 8) ⟨8, [], by decide, by decide, rfl⟩,
   (claimC9.2.2 stateDissolve none (by decide)).1⟩

/-- C4 counterexample: the claim requires a fresh `TargetLength` to be drawn
for the new sentence on restart, but `targetLength` is a `useState` cell
whose initialiser runs once at component mount (part_002 line 136) and
`beginSentence` never touches it: at this concrete reachable completed state
with target length 9, the restart resets the words, side and prefetched pair
but leaves the target length exactly as it was — no draw occurs. -/
theorem claimC4_counterexample :
    Reachable stateSealNine ∧ stateSealNine.phase = Phase.complete ∧
    stateSealNine.targetLength = 9 ∧
    restartStep stateSealNine = applyEv stateSealNine Ev.restart ∧
    (restartStep stateSealNine).words = [] ∧
    (restartStep stateSealNine).phase = Phase.waiting ∧
    (restartStep stateSealNine).targetLength = 9 :=
  ⟨⟨9, traceSealNine, by decide, by decide, rfl⟩, by decide, by decide, rfl,
   by decide, by decide, by decide⟩

/-- C4 (amended): a restart from `complete` resets the word sequence to
empty, clears the chosen side and the prefetched pair, sets the loading
flag, re-enters `waiting` awaiting the first fetch — and keeps the target
length unchanged: it is drawn once per mount, in `[8,12]` on every reachable
state, and shared by every sentence of the session rather than redrawn. -/
theorem claimC4 (s : Ctrl) (hc : s.phase = Phase.complete) :
    restartStep s =
      { s with words := [], phase := Phase.waiting, chosenSide := none,
               prefetchedPair := none, isLoading := true, cont := MainCont.beginFetch } ∧
    (restartStep s).targetLength = s.targetLength ∧
    (Reachable s → 8 ≤ s.targetLength ∧ s.targetLength ≤ 12) := by
  refine ⟨?_, ?_, ?_⟩
  · unfold restartStep
    rw [if_pos hc]
    rfl
  · unfold restartStep
    rw [if_pos hc]
    rfl
  · intro hr
    exact ⟨(reachable_ctrlInv hr).tlLower, (reachable_ctrlInv hr).tlUpper⟩

/-- C4 witness: the amended restart behaviour at the concrete completed
state of `traceSealNine`. -/
theorem claimC4_witness :
    restartStep stateSealNine =
      { stateSealNine with words := [], phase := Phase.waiting, chosenSide := none,
                           prefetchedPair := none, isLoading := true,
                           cont := MainCont.beginFetch } ∧
    (restartStep stateSealNine).targetLength = stateSealNine.targetLength ∧
    (Reachable stateSealNine →
      8 ≤ stateSealNine.targetLength ∧ stateSealNine.targetLength ≤ 12) :=
  claimC4 stateSealNine (by decide)

/-- C2 counterexample: a reachable run in which the step-one prefetch
(request key `["the"]`) completed only after that step re-entered `choosing`
via a fresh fetch; at the next step's dissolving→choosing transition the
stored pair — fetched for `["the"]` — is adopted although the sentence now
stands at `["the", "rain"]`.  The adopted pair's oracle-call argument does
not equal the sentence as it now stands, and the mismatch guard asserted by
the claim does not exist in the code. -/
theorem claimC2_counterexample :
    Reachable stateStale ∧
    stateStale.words = ["the"] ∧
    stateStale.cont = MainCont.dissolve "rain" ∧
    stateStale.prefetchedPair = some (["the"], ⟨"night", "moth"⟩) ∧
    dissolveEndStep stateStale = applyEv stateStale Ev.dissolveEnd ∧
    (dissolveEndStep stateStale).phase = Phase.choosing ∧
    (dissolveEndStep stateStale).currentPair = some ⟨"night", "moth"⟩ ∧
    (dissolveEndStep stateStale).words = ["the", "rain"] ∧
    ¬ (["the"] : List String) = ["the", "rain"] :=
  ⟨⟨8, traceStale, by decide, by decide, rfl⟩, by decide, by decide, by decide,
   rfl, by decide, by decide, by decide, by decide⟩

/-- C2 (amended): at a dissolving→choosing transition with a prefetched pair
on hand, the pair is adopted immediately and no oracle call is issued (the
main flow goes idle and the outstanding-prefetch requests are untouched);
when the pair's recorded request key equals the updated sentence — the words
before this step plus the word the user chose — the adopted pair is indeed
the one fetched for the sentence as it now stands.  Without that key
hypothesis the property fails: a stale prefetched pair is adopted all the
same (see the counterexample). -/
theorem claimC2 (s : Ctrl) (c : String) (k : List String) (p : WordPair)
    (hcont : s.cont = MainCont.dissolve c)
    (hns : ¬ (s.targetLength ≤ s.words.length + 1 ∨ endsWithPeriod c = true))
    (hpref : s.prefetchedPair = some (k, p))
    (hkey : k = s.words ++ [c]) :
    (dissolveEndStep s).currentPair = some p ∧
    (dissolveEndStep s).phase = Phase.choosing ∧
    (dissolveEndStep s).cont = MainCont.idle ∧
    (dissolveEndStep s).prefetchInFlight = s.prefetchInFlight ∧
    (dissolveEndStep s).prefetchedPair = none ∧
    (dissolveEndStep s).words = k := by
  have hns2 : ¬ (s.targetLength ≤ (s.words ++ [c]).length ∨ endsWithPeriod c = true) := by
    simpa [List.length_append] using hns
  unfold dissolveEndStep
  rw [hcont]
  dsimp only
  rw [if_neg hns2, hpref]
  exact ⟨rfl, rfl, rfl, rfl, rfl, hkey.symm⟩

/-- C2 witness: the matching-key adoption at a concrete mid-dissolve
state. -/
theorem claimC2_witness :
    (dissolveEndStep adoptState).currentPair = some ⟨"night", "moth"⟩ ∧
    (dissolveEndStep adoptState).phase = Phase.choosing ∧
    (dissolveEndStep adoptState).cont = MainCont.idle ∧
    (dissolveEndStep adoptState).prefetchInFlight = adoptState.prefetchInFlight ∧
    (dissolveEndStep adoptState).prefetchedPair = none ∧
    (dissolveEndStep adoptState).words = ["the", "rain"] :=
  claimC2 adoptState "rain" ["the", "rain"] ⟨"night", "moth"⟩
    (by decide) (by decide) (by decide) (by decide)

/-- C1 counterexample: the claim demands 8-12 words and exactly one trailing
period for every completed run regardless of the oracle's words, but an
oracle word that itself carries periods seals the sentence at once: this
reachable run completes with a single word, `"rain.."`, whose trailing
punctuation is two periods. -/
theorem claimC1_counterexample :
    Reachable stateSealDouble ∧ stateSealDouble.phase = Phase.complete ∧
    stateSealDouble.words.length < 8 ∧
    stateSealDouble.words.getLast? = some "rain.." ∧
    exactlyOneTrailingPeriod "rain.." = false :=
  ⟨⟨8, traceSealDouble, by decide, by decide, rfl⟩, by decide, by decide,
   by decide, by decide⟩

/-- C1 (amended): every run reaching `complete` has a nonempty sentence of
at most `targetLength ≤ 12` words whose last word ends with a period.  The
lower bound 8 and the exactly-one-period guarantee hold only when the oracle
respects the prompt discipline (no premature terminal period and no doubled
one), which the controller does not enforce — see the counterexample. -/
theorem claimC1 (s : Ctrl) (hr : Reachable s) (hc : s.phase = Phase.complete) :
    1 ≤ s.words.length ∧ s.words.length ≤ s.targetLength ∧ s.targetLength ≤ 12 ∧
    ∃ w, s.words.getLast? = some w ∧ endsWithPeriod w = true := by
  have h := reachable_ctrlInv hr
  obtain ⟨w, hw, hp⟩ := h.completeLast hc
  refine ⟨?_, h.lenLe, h.tlUpper, w, hw, hp⟩
  cases hwords : s.words with
  | nil =>
      rw [hwords] at hw
      exact absurd hw (by simp)
  | cons a l =>
      simp

/-- C1 witness: a concrete completed run (sealed by the word `"rain."`)
satisfying the amended bounds and the final-period property. -/
theorem claimC1_witness :
    1 ≤ stateSealOne.words.length ∧
    stateSealOne.words.length ≤ stateSealOne.targetLength ∧
    stateSealOne.targetLength ≤ 12 ∧
    ∃ w, stateSealOne.words.getLast? = some w ∧ endsWithPeriod w = true :=
  claimC1 stateSealOne ⟨8, traceSealOne, by decide, by decide, rfl⟩ (by decide)

/-- C6: at every reachable state the sentence never exceeds the target
length; finishing a dissolve never exceeds it either; and the sentence is
sealed — the phase becomes `complete`, the last word then carrying a
terminal period (appended in place when missing) — exactly when appending
the chosen word reaches the target length or the chosen word already ends
with a period. -/
theorem claimC6 (s : Ctrl) (hr : Reachable s) :
    s.words.length ≤ s.targetLength ∧
    ∀ c, s.cont = MainCont.dissolve c →
      (dissolveEndStep s).words.length ≤ s.targetLength ∧
      ((dissolveEndStep s).phase = Phase.complete ↔
        (s.targetLength ≤ s.words.length + 1 ∨ endsWithPeriod c = true)) ∧
      ((s.targetLength ≤ s.words.length + 1 ∨ endsWithPeriod c = true) →
        ∃ w, (dissolveEndStep s).words.getLast? = some w ∧ endsWithPeriod w = true) := by
  have h := reachable_ctrlInv hr
  refine ⟨h.lenLe, ?_⟩
  intro c hcont
  have hlt := (h.dissolveCont c hcont).1
  have hph := (h.dissolveCont c hcont).2
  unfold dissolveEndStep
  rw [hcont]
  dsimp only
  by_cases hseal : s.targetLength ≤ s.words.length + 1 ∨ endsWithPeriod c = true
  · have hseal2 : s.targetLength ≤ (s.words ++ [c]).length ∨ endsWithPeriod c = true := by
      simpa [List.length_append] using hseal
    rw [if_pos hseal2]
    by_cases hp : endsWithPeriod c = true
    · rw [if_pos hp]
      refine ⟨?_, ?_, ?_⟩
      · simp only [List.length_append, List.length_singleton]
        omega
      · exact ⟨fun _ => hseal, fun _ => rfl⟩
      · intro _
        exact ⟨c, List.getLast?_concat _, hp⟩
    · rw [if_neg hp]
      refine ⟨?_, ?_, ?_⟩
      · simp only [List.length_append, List.length_singleton]
        omega
      · exact ⟨fun _ => hseal, fun _ => rfl⟩
      · intro _
        exact ⟨c ++ ".", List.getLast?_concat _, endsWithPeriod_append_period c⟩
  · have hseal2 : ¬ (s.targetLength ≤ (s.words ++ [c]).length ∨ endsWithPeriod c = true) := by
      simpa [List.length_append] using hseal
    rw [if_neg hseal2]
    have hlt2 : s.words.length + 1 < s.targetLength := by
      rcases Nat.lt_or_ge (s.words.length + 1) s.targetLength with hg | hb
      · exact hg
      · exact absurd (Or.inl hb) hseal
    cases hpp : s.prefetchedPair with
    | some kp =>
        refine ⟨?_, ?_, ?_⟩
        · simp only [List.length_append, List.length_singleton]
          omega
        · constructor
          · intro hcc
            exact Phase.noConfusion hcc
          · intro hcc
            exact absurd hcc hseal
        · intro hcc
          exact absurd hcc hseal
    | none =>
        refine ⟨?_, ?_, ?_⟩
        · simp only [List.length_append, List.length_singleton]
          omega
        · constructor
          · intro hcc
            rw [hph] at hcc
            exact Phase.noConfusion hcc
          · intro hcc
            exact absurd hcc hseal
        · intro hcc
          exact absurd hcc hseal

/-- C6 witness: the invariant and the sealing characterisation at a concrete
mid-dissolve state (one word pending against a target of 8: the dissolve
does not seal). -/
theorem claimC6_witness :
    stateDissolve.words.length ≤ stateDissolve.targetLength ∧
    ((dissolveEndStep stateDissolve).phase = Phase.complete ↔
      (stateDissolve.targetLength ≤ stateDissolve.words.length + 1 ∨
        endsWithPeriod "the" = true)) :=
  ⟨(claimC6 stateDissolve ⟨8, traceDissolve, by decide, by decide, rfl⟩).1,
   ((claimC6 stateDissolve
      ⟨8, traceDissolve, by decide, by decide, rfl⟩).2 "the" (by decide)).2.1⟩
